import Mathlib

/-
Verification of the query/aggregation core of the redcloud-unit-economics API:
the chainable QueryBuilder and AggregateBuilder over the document store
(src/app/db/mongo_client.py), the population resolver inside QueryBuilder.exec,
the cache-aside layer (src/app/db/redis_client.py, src/app/services/base.py),
the brand service (src/app/services/brand_service.py), the facet pagination
pattern of the sales service (src/app/services/sales_service.py), and the
warehouse client retry policy (src/app/db/bigquery.py).

Documents are schema-light ordered mappings from string field names to values
(null, bool, int, string, opaque identifier, list, nested document), mirroring
the Python dict values the store hands back.  The document store itself is an
external collaborator; its filter, sort and aggregation semantics are modelled
only as far as the code under verification relies on them.
-/

mutual
/-- A document value: the Python-dict value universe used by the store layer.
Defined mutually with lists of values and with field lists so that decidable
equality is derivable. -/
inductive Value where
  | vNull : Value
  | vBool (b : Bool) : Value
  | vInt (n : Int) : Value
  | vStr (s : String) : Value
  | vId (s : String) : Value
  | vList (xs : VList) : Value
  | vDoc (fs : VFields) : Value
  deriving DecidableEq, Repr

/-- An ordered list of document values. -/
inductive VList where
  | nil : VList
  | cons (head : Value) (tail : VList) : VList
  deriving DecidableEq, Repr

/-- An ordered list of (field name, value) pairs: a nested document. -/
inductive VFields where
  | nil : VFields
  | cons (key : String) (val : Value) (tail : VFields) : VFields
  deriving DecidableEq, Repr
end

/-- Convert a VList to an ordinary list of values. -/
def VList.toList : VList → List Value
  | .nil => []
  | .cons v t => v :: VList.toList t

/-- Build a VList from an ordinary list of values. -/
def VList.ofList : List Value → VList
  | [] => .nil
  | v :: t => .cons v (VList.ofList t)

/-- Map a function over a VList. -/
def VList.map (f : Value → Value) : VList → VList
  | .nil => .nil
  | .cons v t => .cons (f v) (VList.map f t)

/-- Length of a VList. -/
def VList.length : VList → Nat
  | .nil => 0
  | .cons _ t => VList.length t + 1

/-- A top-level document: an ordered association list from field names to
values, the shallow form of a Python dict returned by the store. -/
abbrev Doc := List (String × Value)

/-- Read a field of a document (Python: doc[field] / field in doc). -/
def docGet (d : Doc) (k : String) : Option Value :=
  (d.find? (fun p => p.1 == k)).map (fun p => p.2)

/-- Read a field with a default. -/
def docGetD (d : Doc) (k : String) (v0 : Value) : Value :=
  (docGet d k).getD v0

/-- Assign an existing field of a document (Python: doc[field] = v keeps the
key position of the dict entry). -/
def docSet (d : Doc) (k : String) (v : Value) : Doc :=
  d.map (fun p => if p.1 == k then (p.1, v) else p)

/-- Embed a top-level document as a nested document value. -/
def docToFields : Doc → VFields
  | [] => .nil
  | (k, v) :: t => .cons k v (docToFields t)

/-- Flatten a nested document back to an association list. -/
def VFields.toDocList : VFields → List (String × Value)
  | .nil => []
  | .cons k v t => (k, v) :: VFields.toDocList t

/-- First binding of a key in a nested document. -/
def VFields.get : VFields → String → Option Value
  | .nil, _ => none
  | .cons k v t, key => if k == key then some v else VFields.get t key

/-- Python truthiness of a document value (None, 0, empty string, empty list
and empty dict are falsy). -/
def truthy : Value → Bool
  | .vNull => false
  | .vBool b => b
  | .vInt n => n != 0
  | .vStr s => !s.isEmpty
  | .vId _ => true
  | .vList .nil => false
  | .vList (.cons _ _) => true
  | .vDoc .nil => false
  | .vDoc (.cons _ _ _) => true

mutual
/-- Serialization of a value as performed by json.loads(bson.json_util.dumps _)
in BaseService.serialize_mongodb_doc: store-native identifiers become
single-field documents keyed by the string dollar-oid, everything else is
unchanged up to recursion. -/
def serializeValue : Value → Value
  | .vNull => .vNull
  | .vBool b => .vBool b
  | .vInt n => .vInt n
  | .vStr s => .vStr s
  | .vId s => .vDoc (.cons "$oid" (.vStr s) .nil)
  | .vList xs => .vList (serializeVList xs)
  | .vDoc fs => .vDoc (serializeVFields fs)

def serializeVList : VList → VList
  | .nil => .nil
  | .cons v t => .cons (serializeValue v) (serializeVList t)

def serializeVFields : VFields → VFields
  | .nil => .nil
  | .cons k v t => .cons k (serializeValue v) (serializeVFields t)
end

/-- BaseService.serialize_mongodb_doc: convert a store document to a plain
JSON-representable value. -/
def serialize_mongodb_doc (d : Doc) : Value :=
  .vDoc (docToFields (d.map (fun p => (p.1, serializeValue p.2))))

/-- Equality match of a Mongo filter against the value of a field (absent
field matches null; an array field also matches any of its elements). -/
def eqMatch (dv : Option Value) (v : Value) : Bool :=
  match dv with
  | none => v == .vNull
  | some d =>
      d == v ||
        (match d with
         | .vList xs => xs.toList.contains v
         | _ => false)

/-- Membership test used by the dollar-in and dollar-nin operators: the field
value is one of the candidates, or the field is an array intersecting the
candidates, or the field is absent and null is among the candidates. -/
def inMatch (dv : Option Value) (cands : List Value) : Bool :=
  match dv with
  | none => cands.contains Value.vNull
  | some d =>
      cands.contains d ||
        (match d with
         | .vList xs => xs.toList.any (fun x => cands.contains x)
         | _ => false)

/-- One filter operator applied to a field value.  Covers exactly the
operators this repository sends to the store: dollar-in (population fetch),
dollar-nin (brand listing), dollar-exists (sales metrics). -/
def evalOp (dv : Option Value) (op : String) (arg : Value) : Bool :=
  if op == "$in" then
    match arg with
    | .vList xs => inMatch dv xs.toList
    | _ => false
  else if op == "$nin" then
    match arg with
    | .vList xs => !inMatch dv xs.toList
    | _ => false
  else if op == "$exists" then
    (truthy arg) == dv.isSome
  else false

/-- A single filter condition: an operator document applies each operator
conjunctively, any other value is an equality match. -/
def matchesCond (dv : Option Value) (cond : Value) : Bool :=
  match cond with
  | .vDoc fs =>
      let fl := fs.toDocList
      if fl.any (fun p => p.1.data.head? == some '$') then
        fl.all (fun p => evalOp dv p.1 p.2)
      else eqMatch dv cond
  | _ => eqMatch dv cond

/-- A Mongo filter document matches a document when every condition matches
the corresponding field; the empty filter matches every document. -/
def matchesFilter (q : Doc) (d : Doc) : Bool :=
  q.all (fun p => matchesCond (docGet d p.1) p.2)

/-- The document store environment: named collections of documents, plus the
store-side behaviours this layer delegates entirely (sort order of a find with
a sort specification, and pipeline execution for AggregateBuilder.exec). -/
structure StoreEnv where
  colls : List (String × List Doc)
  sortDocs : List (String × Int) → List Doc → List Doc
  aggregateImpl : String → List Doc → List Doc

/-- MongoDBClient.get_collection: a collection addressed by name (an unknown
name behaves as an empty collection). -/
def StoreEnv.getColl (env : StoreEnv) (name : String) : List Doc :=
  ((env.colls.find? (fun p => p.1 == name)).map (fun p => p.2)).getD []

/-- MongoDBClient.find_many: filter the collection, apply the store-side sort
when a nonempty sort specification is given, skip, then limit (0 meaning
unbounded). -/
def findMany (env : StoreEnv) (coll : String) (q : Doc) (limit skip : Nat)
    (sort : List (String × Int)) : List Doc :=
  let matched := (env.getColl coll).filter (matchesFilter q)
  let sorted := if sort.isEmpty then matched else env.sortDocs sort matched
  let skipped := sorted.drop skip
  if limit > 0 then skipped.take limit else skipped

/-- MongoDBClient.find_one / pymongo find_one: the first matching document. -/
def find_one (env : StoreEnv) (coll : String) (q : Doc) : Option Doc :=
  ((env.getColl coll).filter (matchesFilter q)).head?

/-- QueryBuilder (mongo_client.py): accumulated state of a chainable
single-collection find.  The filter is carried as data; skip and limit are
document counts (the API layer only ever passes nonnegative ones); a sort
specification of nil stands for the Python default None. -/
structure QueryBuilder where
  collectionName : String
  query : Doc := []
  _limit : Nat := 0
  _skip : Nat := 0
  _sort : List (String × Int) := []
  _populate_fields : List (String × String) := []

/-- QueryBuilder.limit: overwrite the limit option. -/
def QueryBuilder.limit (qb : QueryBuilder) (n : Nat) : QueryBuilder :=
  { qb with _limit := n }

/-- QueryBuilder.skip: overwrite the skip option. -/
def QueryBuilder.skip (qb : QueryBuilder) (n : Nat) : QueryBuilder :=
  { qb with _skip := n }

/-- QueryBuilder.sort: overwrite the sort option. -/
def QueryBuilder.sort (qb : QueryBuilder) (s : List (String × Int)) : QueryBuilder :=
  { qb with _sort := s }

/-- QueryBuilder.populate: append a (field, target collection) registration;
a missing target collection defaults to the field name. -/
def QueryBuilder.populate (qb : QueryBuilder) (field : String)
    (target_collection : Option String := none) : QueryBuilder :=
  { qb with _populate_fields := qb._populate_fields ++ [(field, target_collection.getD field)] }

/-- The find phase of QueryBuilder.exec: collection.find(query) with skip,
limit and sort applied when truthy (the store evaluates sort before skip
before limit regardless of the order the cursor methods are chained). -/
def QueryBuilder.findDocs (qb : QueryBuilder) (env : StoreEnv) : List Doc :=
  let matched := (env.getColl qb.collectionName).filter (matchesFilter qb.query)
  let sorted := if qb._sort.isEmpty then matched else env.sortDocs qb._sort matched
  let skipped := sorted.drop qb._skip
  if qb._limit > 0 then skipped.take qb._limit else skipped

/-- Add a value to the candidate identifier set (a Python set: membership
only, each value kept once). -/
def insertIfAbsent (acc : List Value) (v : Value) : List Value :=
  if acc.contains v then acc else acc ++ [v]

/-- One document contribution to the candidate set of a populate field: all
elements of a list value, the value itself otherwise, nothing when the field
is absent. -/
def collectStep (field : String) (acc : List Value) (d : Doc) : List Value :=
  match docGet d field with
  | none => acc
  | some (.vList xs) => xs.toList.foldl insertIfAbsent acc
  | some v => insertIfAbsent acc v

/-- The candidate identifier set of a populate field over a batch of
documents (the ref_ids set of QueryBuilder.exec). -/
def refIdsOf (field : String) (docs : List Doc) : List Value :=
  docs.foldl (collectStep field) []

/-- The batched reference fetch of QueryBuilder.exec: one find against the
target collection with the filter matching identifier-in-candidate-set. -/
def fetchRefs (env : StoreEnv) (target : String) (refIds : List Value) : List Doc :=
  (env.getColl target).filter
    (matchesFilter [("_id", .vDoc (.cons "$in" (.vList (VList.ofList refIds)) .nil))])

/-- The identifier-to-document mapping built from the fetched documents.  The
Python dict comprehension lets a later duplicate key overwrite an earlier
one, so the list is reversed and lookup takes the first hit.  Store documents
always carry an _id field, which the default null is never reached for. -/
def mkMapping (fetched : List Doc) : List (Value × Doc) :=
  (fetched.map (fun d => (docGetD d "_id" .vNull, d))).reverse

/-- Lookup in the identifier-to-document mapping. -/
def mLookup (m : List (Value × Doc)) (v : Value) : Option Doc :=
  (m.find? (fun p => p.1 == v)).map (fun p => p.2)

/-- fetched_mapping.get(v, v): the fetched document for a resolvable
identifier, the raw value unchanged otherwise. -/
def resolveValue (m : List (Value × Doc)) (v : Value) : Value :=
  match mLookup m v with
  | some d => .vDoc (docToFields d)
  | none => v

/-- In-place substitution of one populate field value: a list is mapped
elementwise, a scalar is resolved directly. -/
def substituteField (m : List (Value × Doc)) (v : Value) : Value :=
  match v with
  | .vList xs => .vList (xs.map (resolveValue m))
  | v => resolveValue m v

/-- One iteration of the populate loop of QueryBuilder.exec for a registered
(field, target collection) pair: collect the candidate set, skip the field
entirely when it is empty, otherwise issue the single batched fetch and
substitute into every document that has the field.  The second component
counts the store round trips issued (0 or 1). -/
def populateField (env : StoreEnv) (docs : List Doc) (field target : String) :
    List Doc × Nat :=
  let refIds := refIdsOf field docs
  if refIds.isEmpty then (docs, 0)
  else
    let m := mkMapping (fetchRefs env target refIds)
    (docs.map (fun d =>
      match docGet d field with
      | none => d
      | some v => docSet d field (substituteField m v)), 1)

/-- The populate loop of QueryBuilder.exec: the registrations are processed
sequentially in registration order, each seeing the documents produced by the
previous one; round trips are summed. -/
def populateAll (env : StoreEnv) : List (String × String) → List Doc → List Doc × Nat
  | [], docs => (docs, 0)
  | reg :: rest, docs =>
      let step := populateField env docs reg.1 reg.2
      let tail := populateAll env rest step.1
      (tail.1, step.2 + tail.2)

/-- QueryBuilder.exec: run the find, return an empty result unchanged without
invoking the population resolver, otherwise resolve every registered populate
field.  The second component counts the population round trips issued against
the target collections (the initial find is not counted). -/
def QueryBuilder.exec (qb : QueryBuilder) (env : StoreEnv) : List Doc × Nat :=
  let documents := qb.findDocs env
  if documents.isEmpty then (documents, 0)
  else populateAll env qb._populate_fields documents

/-- State-passing form of QueryBuilder.exec: the result together with the
builder state after the call.  The method body assigns no attribute of self
(it only reads query, _skip, _limit, _sort and _populate_fields), so the
post state is the builder itself. -/
def QueryBuilder.execS (qb : QueryBuilder) (env : StoreEnv) :
    (List Doc × Nat) × QueryBuilder :=
  (qb.exec env, qb)

/-- The single-document population step of QueryBuilder.exec_one for one
registered (field, target collection) pair: a list value is fetched in one
batched find capped at the list length and substituted elementwise; a scalar
value is fetched with find_one on its identifier and replaced only by a
truthy result.  The second component counts store round trips (1 whenever the
field is present). -/
def populateOne (env : StoreEnv) (d : Doc) (field target : String) : Doc × Nat :=
  match docGet d field with
  | none => (d, 0)
  | some (.vList xs) =>
      let fetched := (fetchRefs env target xs.toList).take xs.toList.length
      let m := mkMapping fetched
      (docSet d field (.vList (xs.map (resolveValue m))), 1)
  | some v =>
      match find_one env target [("_id", v)] with
      | some p => (docSet d field (if p.isEmpty then v else .vDoc (docToFields p)), 1)
      | none => (docSet d field v, 1)

/-- The registration loop of QueryBuilder.exec_one. -/
def populateOneAll (env : StoreEnv) : List (String × String) → Doc → Doc × Nat
  | [], d => (d, 0)
  | reg :: rest, d =>
      let step := populateOne env d reg.1 reg.2
      let tail := populateOneAll env rest step.1
      (tail.1, step.2 + tail.2)

/-- QueryBuilder.exec_one: find_one on the accumulated filter, return a falsy
result unchanged, otherwise resolve the registered populate fields on that
single document. -/
def QueryBuilder.exec_one (qb : QueryBuilder) (env : StoreEnv) : Option Doc × Nat :=
  match find_one env qb.collectionName qb.query with
  | none => (none, 0)
  | some d =>
      if d.isEmpty then (some d, 0)
      else
        let r := populateOneAll env qb._populate_fields d
        (some r.1, r.2)

/-- State-passing form of QueryBuilder.exec_one: the method body assigns no
attribute of self, so the post state is the builder itself. -/
def QueryBuilder.exec_oneS (qb : QueryBuilder) (env : StoreEnv) :
    (Option Doc × Nat) × QueryBuilder :=
  (qb.exec_one env, qb)

/-- AggregateBuilder (mongo_client.py): a collection name and the accumulated
ordered pipeline of stage documents. -/
structure AggregateBuilder where
  collectionName : String
  pipeline : List Doc := []

/-- AggregateBuilder.match (renamed, match being a Lean keyword): append one
dollar-match stage. -/
def AggregateBuilder.matchStage (b : AggregateBuilder) (criteria : Doc) : AggregateBuilder :=
  { b with pipeline := b.pipeline ++ [[("$match", .vDoc (docToFields criteria))]] }

/-- AggregateBuilder.group: append one dollar-group stage. -/
def AggregateBuilder.group (b : AggregateBuilder) (group_spec : Doc) : AggregateBuilder :=
  { b with pipeline := b.pipeline ++ [[("$group", .vDoc (docToFields group_spec))]] }

/-- AggregateBuilder.sort: append one dollar-sort stage. -/
def AggregateBuilder.sort (b : AggregateBuilder) (sort_spec : Doc) : AggregateBuilder :=
  { b with pipeline := b.pipeline ++ [[("$sort", .vDoc (docToFields sort_spec))]] }

/-- AggregateBuilder.project: append one dollar-project stage. -/
def AggregateBuilder.project (b : AggregateBuilder) (projection : Doc) : AggregateBuilder :=
  { b with pipeline := b.pipeline ++ [[("$project", .vDoc (docToFields projection))]] }

/-- AggregateBuilder.skip: append one dollar-skip stage. -/
def AggregateBuilder.skip (b : AggregateBuilder) (n : Int) : AggregateBuilder :=
  { b with pipeline := b.pipeline ++ [[("$skip", .vInt n)]] }

/-- AggregateBuilder.limit: append one dollar-limit stage. -/
def AggregateBuilder.limit (b : AggregateBuilder) (n : Int) : AggregateBuilder :=
  { b with pipeline := b.pipeline ++ [[("$limit", .vInt n)]] }

/-- AggregateBuilder.add_stage: append one custom stage document. -/
def AggregateBuilder.add_stage (b : AggregateBuilder) (stage : Doc) : AggregateBuilder :=
  { b with pipeline := b.pipeline ++ [stage] }

/-- AggregateBuilder.exec: run the store aggregation on the accumulated
pipeline, exactly as accumulated. -/
def AggregateBuilder.exec (b : AggregateBuilder) (env : StoreEnv) : List Doc :=
  env.aggregateImpl b.collectionName b.pipeline

/-- State-passing form of AggregateBuilder.exec: the method body assigns no
attribute of self, so the post state is the builder itself. -/
def AggregateBuilder.execS (b : AggregateBuilder) (env : StoreEnv) :
    List Doc × AggregateBuilder :=
  (b.exec env, b)

/-- The Redis cache state: key to stored value.  redis setex stores
json.dumps of the value and get returns json.loads of the stored string,
an exact round trip on the JSON-representable values this API caches, so the
cache is modelled at the value level.  TTL expiry is passive and outside the
claims, so it is not modelled. -/
abbrev Cache := List (String × Value)

/-- RedisClient.get_cached_data: the stored value under the key, if any
(lookup takes the most recent binding). -/
def redisGet (c : Cache) (k : String) : Option Value :=
  (c.find? (fun p => p.1 == k)).map (fun p => p.2)

/-- RedisClient.set_cached_data: overwrite the binding of the key (the new
binding shadows any older one under redisGet). -/
def redisSet (c : Cache) (k : String) (v : Value) : Cache :=
  (k, v) :: c

/-- BaseService.get_cached_data: a pass-through to the Redis client. -/
def getCachedData (c : Cache) (k : String) : Option Value :=
  redisGet c k

/-- BaseService.set_cached_data: store the value only when it is truthy;
a falsy value leaves the cache untouched. -/
def setCachedData (c : Cache) (k : String) (v : Value) : Cache :=
  if truthy v then redisSet c k v else c

/-- The brand filter of BrandService.get_brands: brand_name not in
[None, "-"], overwritten by an equality match when a truthy brand_name
argument is given (the empty string is falsy and keeps the base filter). -/
def brandsQuery (brand_name : Option String) : Doc :=
  match brand_name with
  | some n =>
      if n.isEmpty then
        [("brand_name", .vDoc (.cons "$nin" (.vList (.cons .vNull (.cons (.vStr "-") .nil))) .nil))]
      else [("brand_name", .vStr n)]
  | none =>
      [("brand_name", .vDoc (.cons "$nin" (.vList (.cons .vNull (.cons (.vStr "-") .nil))) .nil))]

/-- Render the optional brand name the way the Python f-string does: None
prints as the string None. -/
def optStr : Option String → String
  | none => "None"
  | some s => s

/-- The cache key of BrandService.get_brands. -/
def brandsKey (skip limit : Nat) (brand_name : Option String) : String :=
  let b := optStr brand_name
  s!"brands_list_{skip}_{limit}_{b}"

/-- The miss path of BrandService.get_brands: total from an unpaginated
find_many, one paginated find_many sorted by brand name, serialization, the
pagination metadata, and the write-back through set_cached_data.  The third
component counts the store round trips issued (two find_many calls). -/
def get_brands_compute (env : StoreEnv) (cache : Cache) (skip limit : Nat)
    (brand_name : Option String) : Value × Cache × Nat :=
  let q := brandsQuery brand_name
  let total := (findMany env "brands" q 0 0 []).length
  let brands := findMany env "brands" q limit skip [("brand_name", 1)]
  let serialized := brands.map serialize_mongodb_doc
  let page : Int := if limit > 0 then (skip / limit : Nat) + 1 else 1
  let result := Value.vDoc (docToFields
    [("data", .vList (VList.ofList serialized)),
     ("total", .vInt total),
     ("page", .vInt page),
     ("page_size", .vInt limit)])
  (result, setCachedData cache (brandsKey skip limit brand_name) result, 2)

/-- BrandService.get_brands: return a truthy cached value for the key built
from all parameters, otherwise compute, cache and return.  The third
component counts the store round trips issued by the call. -/
def get_brands (env : StoreEnv) (cache : Cache) (skip limit : Nat)
    (brand_name : Option String) : Value × Cache × Nat :=
  match getCachedData cache (brandsKey skip limit brand_name) with
  | some v =>
      if truthy v then (v, cache, 0)
      else get_brands_compute env cache skip limit brand_name
  | none => get_brands_compute env cache skip limit brand_name

/-- The cache key of BrandService.get_brand_by_name. -/
def brandKey (brand_name : String) : String :=
  s!"brand_{brand_name}"

/-- BrandService.get_brand_by_name: cache check, find_one on the brand name,
serialize and cache a found brand, return None otherwise (nothing is cached
then, since set_cached_data is never reached).  The third component counts
the store round trips issued. -/
def get_brand_by_name (env : StoreEnv) (cache : Cache) (brand_name : String) :
    Option Value × Cache × Nat :=
  let key := brandKey brand_name
  match getCachedData cache key with
  | some v =>
      if truthy v then (some v, cache, 0)
      else
        match find_one env "brands" [("brand_name", .vStr brand_name)] with
        | some brand =>
            let s := serialize_mongodb_doc brand
            (some s, setCachedData cache key s, 1)
        | none => (none, cache, 1)
  | none =>
      match find_one env "brands" [("brand_name", .vStr brand_name)] with
      | some brand =>
          let s := serialize_mongodb_doc brand
          (some s, setCachedData cache key s, 1)
      | none => (none, cache, 1)

/-- Modelled store semantics of the facet stage appended by
SalesService.get_sales_metrics (spec section 4.1: two independent
sub-pipelines sharing the same input).  The data branch applies the
dollar-skip then dollar-limit stages of its window to the input; the total
branch applies dollar-count, which emits a single document binding "total" to
the input size when the input is nonempty and emits no document at all on an
empty input. -/
def evalFacetStage (skip limit : Nat) (input : List Doc) : Doc :=
  let dataBranch := (input.drop skip).take limit
  let totalBranch : List Doc :=
    if input.isEmpty then [] else [[("total", Value.vInt input.length)]]
  [("data", .vList (VList.ofList (dataBranch.map (fun d => Value.vDoc (docToFields d))))),
   ("total", .vList (VList.ofList (totalBranch.map (fun d => Value.vDoc (docToFields d)))))]

/-- The total extraction of SalesService.get_sales_metrics from the facet
result document: 0 when the total branch is falsy (absent or empty list),
otherwise the "total" field of its first document with default 0. -/
def extractTotal (result_doc : Doc) : Int :=
  match docGet result_doc "total" with
  | none => 0
  | some v =>
      if truthy v then
        match v with
        | .vList (.cons (.vDoc fs) _) =>
            (match fs.get "total" with
             | some (.vInt n) => n
             | _ => 0)
        | _ => 0
      else 0

/-- The exception taxonomy of google.api_core.exceptions as far as
BigQueryClient.execute_query discriminates it: the four server-side 5xx
classes are subclasses of ServerError, the rest are client-side errors.
BadRequest (HTTP 400) is what a malformed query surfaces as. -/
inductive ApiError where
  | badRequest
  | forbidden
  | notFound
  | tooManyRequests
  | internalServerError
  | badGateway
  | serviceUnavailable
  | gatewayTimeout
  deriving DecidableEq, Repr

/-- isinstance(e, exceptions.ServerError): the 5xx classes. -/
def ApiError.isServerError : ApiError → Bool
  | .internalServerError => true
  | .badGateway => true
  | .serviceUnavailable => true
  | .gatewayTimeout => true
  | _ => false

/-- The retry predicate on BigQueryClient.execute_query:
retry.if_exception_type(exceptions.ServerError, exceptions.BadRequest,
exceptions.BadGateway) — an error is retried iff it is an instance of one of
those three classes. -/
def retryPredicate (e : ApiError) : Bool :=
  e.isServerError || e == .badRequest || e == .badGateway

/-- The bounded total retry deadline, in seconds, configured on
BigQueryClient.execute_query. -/
def retryDeadlineSeconds : Nat := 600

/-- A populate field value Python can put in the candidate set: the field is
absent, holds a hashable scalar, or holds a list of hashable scalars (a dict
or nested list value would make ref_ids.add / ref_ids.update raise, so the
exec contract only covers reference-shaped fields). -/
def refFieldOk (field : String) (d : Doc) : Bool :=
  match docGet d field with
  | none => true
  | some (.vList xs) =>
      xs.toList.all (fun v =>
        match v with
        | .vList _ => false
        | .vDoc _ => false
        | _ => true)
  | some (.vDoc _) => false
  | some _ => true

/-- What claim C1 asserts of one populate registration over a batch: the
batch keeps its length; per document the field is substituted in place (left
alone when absent, mapped elementwise when a list, resolved directly when a
scalar); element substitution preserves list length and positions; an
unresolvable identifier is left unchanged; a resolvable one becomes exactly
the fetched target-collection document carrying that identifier; and every
candidate identifier present in the target collection does resolve. -/
def C1Resolution (env : StoreEnv) (docs : List Doc) (field target : String) : Prop :=
  let m := mkMapping (fetchRefs env target (refIdsOf field docs))
  let out := (populateField env docs field target).1
  (out.length = docs.length) ∧
  (∀ i (h : i < docs.length) (h2 : i < out.length),
     (docGet (docs.get ⟨i, h⟩) field = none → out.get ⟨i, h2⟩ = docs.get ⟨i, h⟩) ∧
     (∀ xs, docGet (docs.get ⟨i, h⟩) field = some (.vList xs) →
        out.get ⟨i, h2⟩ = docSet (docs.get ⟨i, h⟩) field (.vList (xs.map (resolveValue m)))) ∧
     (∀ v, docGet (docs.get ⟨i, h⟩) field = some v → (∀ xs, v ≠ .vList xs) →
        out.get ⟨i, h2⟩ = docSet (docs.get ⟨i, h⟩) field (resolveValue m v))) ∧
  (∀ xs : VList, (xs.map (resolveValue m)).length = xs.length) ∧
  (∀ (xs : VList) i (hi : i < xs.toList.length)
     (hi2 : i < (xs.map (resolveValue m)).toList.length),
     (xs.map (resolveValue m)).toList.get ⟨i, hi2⟩ = resolveValue m (xs.toList.get ⟨i, hi⟩)) ∧
  (∀ v, mLookup m v = none → resolveValue m v = v) ∧
  (∀ v d, mLookup m v = some d →
     resolveValue m v = .vDoc (docToFields d) ∧ d ∈ env.getColl target ∧
       docGetD d "_id" .vNull = v) ∧
  (∀ d, d ∈ docs → ∀ xs, docGet d field = some (.vList xs) →
     ∀ v, v ∈ xs.toList → v ∈ refIdsOf field docs) ∧
  (∀ d, d ∈ docs → ∀ v, docGet d field = some v → (∀ xs, v ≠ .vList xs) →
     v ∈ refIdsOf field docs) ∧
  (∀ t v, t ∈ env.getColl target → docGet t "_id" = some v →
     v ∈ refIdsOf field docs → (mLookup m v).isSome)

/-- A store environment from collection contents alone, with an
order-preserving sort and an inert aggregation; used by the concrete
evaluation witnesses. -/
def plainEnv (colls : List (String × List Doc)) : StoreEnv :=
  { colls := colls, sortDocs := fun _ l => l, aggregateImpl := fun _ _ => [] }

/-- Witness environment for population: a target collection t holding
documents with identifiers a and c. -/
def resolveDemoEnv : StoreEnv :=
  plainEnv
    [("t",
      [[("_id", .vId "a"), ("name", .vStr "Alpha")],
       [("_id", .vId "c"), ("name", .vStr "Gamma")]])]

/-- Witness batch for population: one document whose ref field lists the
identifiers a, b, c, of which b does not exist in the target collection. -/
def resolveDemoDocs : List Doc :=
  [[("ref", .vList (.cons (.vId "a") (.cons (.vId "b") (.cons (.vId "c") .nil)))),
    ("other", .vInt 7)]]

/-- Counterexample builder: the same field registered by two populate calls. -/
def dupPopulateQB : QueryBuilder :=
  (({ collectionName := "c" : QueryBuilder }).populate "x" none).populate "x" none

/-- Counterexample environment: collection c holds one document whose x field
is an identifier with no counterpart in a target collection named x. -/
def dupPopulateEnv : StoreEnv :=
  plainEnv [("c", [[("x", .vId "a")]])]

/-- Witness builder for claim C4: a single populate registration on a field
no document has. -/
def absentFieldQB : QueryBuilder :=
  { collectionName := "c", _populate_fields := [("missing", "t")] }

/-- Witness builder for claim C4: a find that yields no documents (the
collection does not exist) with a populate registration pending. -/
def emptyFindQB : QueryBuilder :=
  { collectionName := "nope", _populate_fields := [("f", "t")] }

/-- Witness environment for claim C4. -/
def absentFieldEnv : StoreEnv :=
  plainEnv [("c", [[("x", .vInt 1)]]), ("t", [[("_id", .vId "z")]])]

/-- Witness cache for claim C9: falsy values stored under both service keys. -/
def falsyCache : Cache :=
  [(brandsKey 0 10 none, .vNull), (brandKey "ghost", .vList .nil)]

/-- Witness environment for claim C9: an empty brands collection. -/
def falsyEnv : StoreEnv :=
  plainEnv [("brands", [])]

/-- Read one field of a result document value (used to state facts about the
pagination metadata the services report). -/
def resultField (v : Value) (k : String) : Option Value :=
  match v with
  | .vDoc fs => fs.get k
  | _ => none

theorem VList.toList_ofList : ∀ l : List Value, (VList.ofList l).toList = l
  | [] => rfl
  | v :: t => by simp [VList.ofList, VList.toList, VList.toList_ofList t]

theorem VList.toList_map (f : Value → Value) :
    ∀ xs : VList, (VList.map f xs).toList = xs.toList.map f
  | .nil => rfl
  | .cons v t => by simp [VList.map, VList.toList, VList.toList_map f t]

theorem VList.length_map (f : Value → Value) :
    ∀ xs : VList, (VList.map f xs).length = xs.length
  | .nil => rfl
  | .cons v t => by simp [VList.map, VList.length, VList.length_map f t]

theorem mem_insertIfAbsent_self (acc : List Value) (v : Value) :
    v ∈ insertIfAbsent acc v := by
  unfold insertIfAbsent
  by_cases h : v ∈ acc <;> simp [h]

theorem mem_insertIfAbsent_of_mem {acc : List Value} {x : Value} (h : x ∈ acc)
    (v : Value) : x ∈ insertIfAbsent acc v := by
  unfold insertIfAbsent
  by_cases hc : v ∈ acc <;> simp [hc, h]

theorem mem_foldl_insertIfAbsent_of_mem {x : Value} (l : List Value) :
    ∀ acc, x ∈ acc → x ∈ l.foldl insertIfAbsent acc := by
  induction l with
  | nil => intro acc h; simpa using h
  | cons v t ih =>
      intro acc h
      exact ih (insertIfAbsent acc v) (mem_insertIfAbsent_of_mem h v)

theorem mem_foldl_insertIfAbsent {x : Value} (l : List Value) (hx : x ∈ l) :
    ∀ acc, x ∈ l.foldl insertIfAbsent acc := by
  induction l with
  | nil => cases hx
  | cons v t ih =>
      intro acc
      rcases List.mem_cons.mp hx with h | h
      · subst h
        exact mem_foldl_insertIfAbsent_of_mem t _ (mem_insertIfAbsent_self acc x)
      · exact ih h _

theorem mem_collectStep_of_mem {x : Value} {acc : List Value} (h : x ∈ acc)
    (field : String) (d : Doc) : x ∈ collectStep field acc d := by
  unfold collectStep
  cases docGet d field with
  | none => exact h
  | some v =>
      cases v with
      | vList xs => exact mem_foldl_insertIfAbsent_of_mem _ _ h
      | vNull => exact mem_insertIfAbsent_of_mem h _
      | vBool b => exact mem_insertIfAbsent_of_mem h _
      | vInt n => exact mem_insertIfAbsent_of_mem h _
      | vStr s => exact mem_insertIfAbsent_of_mem h _
      | vId s => exact mem_insertIfAbsent_of_mem h _
      | vDoc fs => exact mem_insertIfAbsent_of_mem h _

theorem mem_collectStep_list {field : String} {d : Doc} {xs : VList} {v : Value}
    (hf : docGet d field = some (.vList xs)) (hv : v ∈ xs.toList)
    (acc : List Value) : v ∈ collectStep field acc d := by
  unfold collectStep
  rw [hf]
  exact mem_foldl_insertIfAbsent _ hv acc

theorem mem_collectStep_scalar {field : String} {d : Doc} {v : Value}
    (hf : docGet d field = some v) (hs : ∀ xs, v ≠ .vList xs)
    (acc : List Value) : v ∈ collectStep field acc d := by
  unfold collectStep
  rw [hf]
  cases v with
  | vList xs => exact absurd rfl (hs xs)
  | vNull => exact mem_insertIfAbsent_self acc _
  | vBool b => exact mem_insertIfAbsent_self acc _
  | vInt n => exact mem_insertIfAbsent_self acc _
  | vStr s => exact mem_insertIfAbsent_self acc _
  | vId s => exact mem_insertIfAbsent_self acc _
  | vDoc fs => exact mem_insertIfAbsent_self acc _

theorem mem_foldl_collectStep_of_mem {x : Value} {field : String}
    (docs : List Doc) : ∀ acc, x ∈ acc → x ∈ docs.foldl (collectStep field) acc := by
  induction docs with
  | nil => intro acc h; simpa using h
  | cons d t ih =>
      intro acc h
      exact ih _ (mem_collectStep_of_mem h field d)

theorem mem_foldl_collectStep_list {field : String} {d : Doc} {xs : VList}
    {v : Value} (hf : docGet d field = some (.vList xs)) (hv : v ∈ xs.toList) :
    ∀ (docs : List Doc), d ∈ docs → ∀ acc, v ∈ docs.foldl (collectStep field) acc
  | [], hd, _ => absurd hd (List.not_mem_nil d)
  | d0 :: t, hd, acc => by
      rcases List.mem_cons.mp hd with h | h
      · subst h
        exact mem_foldl_collectStep_of_mem t _ (mem_collectStep_list hf hv acc)
      · rw [List.foldl_cons]
        exact mem_foldl_collectStep_list hf hv t h _

theorem mem_refIdsOf_list {field : String} {docs : List Doc} {d : Doc}
    {xs : VList} {v : Value} (hd : d ∈ docs)
    (hf : docGet d field = some (.vList xs)) (hv : v ∈ xs.toList) :
    v ∈ refIdsOf field docs :=
  mem_foldl_collectStep_list hf hv docs hd []

theorem mem_foldl_collectStep_scalar {field : String} {d : Doc} {v : Value}
    (hf : docGet d field = some v) (hs : ∀ xs, v ≠ .vList xs) :
    ∀ (docs : List Doc), d ∈ docs → ∀ acc, v ∈ docs.foldl (collectStep field) acc
  | [], hd, _ => absurd hd (List.not_mem_nil d)
  | d0 :: t, hd, acc => by
      rcases List.mem_cons.mp hd with h | h
      · subst h
        exact mem_foldl_collectStep_of_mem t _ (mem_collectStep_scalar hf hs acc)
      · rw [List.foldl_cons]
        exact mem_foldl_collectStep_scalar hf hs t h _

theorem mem_refIdsOf_scalar {field : String} {docs : List Doc} {d : Doc}
    {v : Value} (hd : d ∈ docs) (hf : docGet d field = some v)
    (hs : ∀ xs, v ≠ .vList xs) : v ∈ refIdsOf field docs :=
  mem_foldl_collectStep_scalar hf hs docs hd []

theorem refIdsOf_shape_of_eq_nil {field : String} {docs : List Doc}
    (h : refIdsOf field docs = []) :
    ∀ d ∈ docs, docGet d field = none ∨ docGet d field = some (.vList .nil) := by
  intro d hd
  cases hg : docGet d field with
  | none => exact Or.inl rfl
  | some v =>
      right
      cases v with
      | vList xs =>
          cases xs with
          | nil => rfl
          | cons a t =>
              exfalso
              have ha : a ∈ (VList.cons a t).toList := by
                simp [VList.toList]
              have hm := mem_refIdsOf_list hd hg ha
              rw [h] at hm
              cases hm
      | vNull =>
          exact absurd (h ▸ mem_refIdsOf_scalar hd hg (fun xs hx => by cases hx))
            (List.not_mem_nil _)
      | vBool b =>
          exact absurd (h ▸ mem_refIdsOf_scalar hd hg (fun xs hx => by cases hx))
            (List.not_mem_nil _)
      | vInt n =>
          exact absurd (h ▸ mem_refIdsOf_scalar hd hg (fun xs hx => by cases hx))
            (List.not_mem_nil _)
      | vStr s =>
          exact absurd (h ▸ mem_refIdsOf_scalar hd hg (fun xs hx => by cases hx))
            (List.not_mem_nil _)
      | vId s =>
          exact absurd (h ▸ mem_refIdsOf_scalar hd hg (fun xs hx => by cases hx))
            (List.not_mem_nil _)
      | vDoc fs =>
          exact absurd (h ▸ mem_refIdsOf_scalar hd hg (fun xs hx => by cases hx))
            (List.not_mem_nil _)

theorem foldl_collectStep_of_absent {field : String} :
    ∀ (docs : List Doc) (acc : List Value),
      (∀ d ∈ docs, docGet d field = none) →
      docs.foldl (collectStep field) acc = acc
  | [], _, _ => rfl
  | d :: t, acc, hall => by
      have hd : docGet d field = none := hall d (List.mem_cons_self d t)
      have hstep : collectStep field acc d = acc := by
        unfold collectStep; rw [hd]
      rw [List.foldl_cons, hstep]
      exact foldl_collectStep_of_absent t acc
        (fun x hx => hall x (List.mem_cons_of_mem d hx))

theorem refIdsOf_eq_nil_of_absent {field : String} {docs : List Doc}
    (h : ∀ d ∈ docs, docGet d field = none) : refIdsOf field docs = [] :=
  foldl_collectStep_of_absent docs [] h

theorem docSet_eq_self : ∀ {d : Doc} {k : String} {v : Value},
    (d.map Prod.fst).Nodup → docGet d k = some v → docSet d k v = d
  | [], k, v, _, hg => by simp [docGet] at hg
  | (k0, v0) :: t, k, v, hnd, hg => by
      by_cases hk : k0 == k
      · have hkk : k0 = k := by simpa using hk
        have hv : v0 = v := by
          simp [docGet, List.find?, hk] at hg
          exact hg
        subst hkk
        subst hv
        unfold docSet
        simp only [List.map_cons, hk, if_pos]
        have hnotin : ∀ p ∈ t, ¬(p.1 == k0) := by
          intro p hp hpk
          have hpk' : p.1 = k0 := by simpa using hpk
          have : k0 ∈ t.map Prod.fst := hpk' ▸ List.mem_map_of_mem Prod.fst hp
          exact (List.nodup_cons.mp (by simpa using hnd)).1 this
        have htail : t.map (fun p => if p.1 == k0 then (p.1, v0) else p) = t := by
          calc t.map (fun p => if p.1 == k0 then (p.1, v0) else p)
              = t.map id := List.map_congr_left (fun p hp => by
                simp [hnotin p hp])
            _ = t := List.map_id t
        rw [htail]
      · have hg' : docGet t k = some v := by
          simpa [docGet, List.find?, hk] using hg
        have hnd' : (t.map Prod.fst).Nodup := (List.nodup_cons.mp (by simpa using hnd)).2
        unfold docSet
        simp only [List.map_cons, hk, if_neg, Bool.false_eq_true, not_false_iff]
        have := docSet_eq_self hnd' hg'
        unfold docSet at this
        rw [this]

theorem mLookup_eq_some {fetched : List Doc} {v : Value} {d : Doc}
    (h : mLookup (mkMapping fetched) v = some d) :
    d ∈ fetched ∧ docGetD d "_id" .vNull = v := by
  unfold mLookup at h
  cases hf : (mkMapping fetched).find? (fun p => p.1 == v) with
  | none => rw [hf] at h; cases h
  | some pr =>
      rw [hf] at h
      have hd : pr.2 = d := by simpa using h
      have hp := List.find?_some hf
      have hm : pr ∈ mkMapping fetched := List.mem_of_find?_eq_some hf
      unfold mkMapping at hm
      rw [List.mem_reverse] at hm
      obtain ⟨d0, hd0, he⟩ := List.mem_map.mp hm
      have h1 : docGetD d0 "_id" .vNull = pr.1 := congrArg Prod.fst he
      have h2 : d0 = pr.2 := congrArg Prod.snd he
      refine ⟨?_, ?_⟩
      · rw [← hd, ← h2]; exact hd0
      · rw [← hd, ← h2, h1]
        exact eq_of_beq hp

theorem mLookup_isSome_of_mem {fetched : List Doc} {t : Doc} {v : Value}
    (ht : t ∈ fetched) (hid : docGetD t "_id" .vNull = v) :
    (mLookup (mkMapping fetched) v).isSome := by
  have hsome : ((mkMapping fetched).find? (fun p => p.1 == v)).isSome := by
    rw [List.find?_isSome]
    refine ⟨(docGetD t "_id" .vNull, t), ?_, ?_⟩
    · unfold mkMapping
      rw [List.mem_reverse]
      exact List.mem_map_of_mem _ ht
    · simp [hid]
  obtain ⟨x, hx⟩ := Option.isSome_iff_exists.mp hsome
  simp [mLookup, hx]

theorem mem_of_mem_fetchRefs {env : StoreEnv} {target : String}
    {ids : List Value} {t : Doc} (h : t ∈ fetchRefs env target ids) :
    t ∈ env.getColl target :=
  List.mem_of_mem_filter h

theorem mem_fetchRefs {env : StoreEnv} {target : String} {ids : List Value}
    {t : Doc} {v : Value} (ht : t ∈ env.getColl target)
    (hid : docGet t "_id" = some v) (hv : v ∈ ids) :
    t ∈ fetchRefs env target ids := by
  unfold fetchRefs
  refine List.mem_filter.mpr ⟨ht, ?_⟩
  simp [matchesFilter, matchesCond, VFields.toDocList, evalOp, inMatch, hid,
    VList.toList_ofList]
  exact Or.inl hv

theorem substituteField_scalar {m : List (Value × Doc)} {v : Value}
    (hs : ∀ xs, v ≠ .vList xs) : substituteField m v = resolveValue m v := by
  cases v with
  | vList xs => exact absurd rfl (hs xs)
  | vNull => rfl
  | vBool b => rfl
  | vInt n => rfl
  | vStr s => rfl
  | vId s => rfl
  | vDoc fs => rfl

theorem resolveValue_of_lookup_none {m : List (Value × Doc)} {v : Value}
    (h : mLookup m v = none) : resolveValue m v = v := by
  unfold resolveValue
  rw [h]

theorem resolveValue_of_lookup_some {m : List (Value × Doc)} {v : Value}
    {d : Doc} (h : mLookup m v = some d) :
    resolveValue m v = .vDoc (docToFields d) := by
  unfold resolveValue
  rw [h]

/-- C1: for every document in the batch and a registered populate field,
resolution is a pure substitution: a list value is replaced elementwise in
order and length, a scalar directly; a resolvable identifier becomes exactly
the fetched target-collection document carrying it, an unresolvable one is
left unchanged as the raw identifier; nothing is dropped and no missing
reference fails the call (the function is total). -/
theorem C1_populate_pure_substitution (env : StoreEnv) (docs : List Doc)
    (field target : String)
    (hok : ∀ d ∈ docs, refFieldOk field d = true)
    (hnd : ∀ d ∈ docs, (d.map Prod.fst).Nodup) :
    C1Resolution env docs field target := by
  simp only [C1Resolution]
  refine ⟨?_, ?_, ?_, ?_, ?_, ?_, ?_, ?_, ?_⟩
  · cases hE : (refIdsOf field docs).isEmpty with
    | true =>
        have hout : (populateField env docs field target).1 = docs := by
          simp [populateField, hE]
        rw [hout]
    | false =>
        have hout : (populateField env docs field target).1 = docs.map (fun d =>
            match docGet d field with
            | none => d
            | some v => docSet d field (substituteField
                (mkMapping (fetchRefs env target (refIdsOf field docs))) v)) := by
          simp [populateField, hE]
        rw [hout, List.length_map]
  · cases hE : (refIdsOf field docs).isEmpty with
    | true =>
        have hnil : refIdsOf field docs = [] := List.isEmpty_iff.mp hE
        have hout : (populateField env docs field target).1 = docs := by
          simp [populateField, hE]
        rw [hout]
        intro i h h2
        have hmem : docs.get ⟨i, h⟩ ∈ docs := List.get_mem docs i h
        refine ⟨fun _ => rfl, ?_, ?_⟩
        · intro xs hg
          rcases refIdsOf_shape_of_eq_nil hnil _ hmem with hnone | hvnil
          · rw [hg] at hnone; cases hnone
          · rw [hg] at hvnil
            have hxs : xs = .nil := by
              injection hvnil with hv
              injection hv.symm with hv2
              exact hv2.symm
            subst hxs
            exact (docSet_eq_self (hnd _ hmem) hg).symm
        · intro v hg hs
          rcases refIdsOf_shape_of_eq_nil hnil _ hmem with hnone | hvnil
          · rw [hg] at hnone; cases hnone
          · rw [hg] at hvnil
            injection hvnil with hv
            exact absurd hv (hs .nil)
    | false =>
        have hout : (populateField env docs field target).1 = docs.map (fun d =>
            match docGet d field with
            | none => d
            | some v => docSet d field (substituteField
                (mkMapping (fetchRefs env target (refIdsOf field docs))) v)) := by
          simp [populateField, hE]
        rw [hout]
        intro i h h2
        have hgeti : (docs.map (fun d =>
            match docGet d field with
            | none => d
            | some v => docSet d field (substituteField
                (mkMapping (fetchRefs env target (refIdsOf field docs))) v))).get ⟨i, h2⟩ =
            (fun d =>
              match docGet d field with
              | none => d
              | some v => docSet d field (substituteField
                  (mkMapping (fetchRefs env target (refIdsOf field docs))) v))
              (docs.get ⟨i, h⟩) := by
          simp only [List.get_eq_getElem, List.getElem_map]
        refine ⟨?_, ?_, ?_⟩
        · intro hg
          rw [hgeti]
          simp only [hg]
        · intro xs hg
          rw [hgeti]
          simp only [hg]
          rfl
        · intro v hg hs
          rw [hgeti]
          simp only [hg]
          rw [substituteField_scalar hs]
  · intro xs
    exact VList.length_map _ xs
  · intro xs i hi hi2
    simp only [List.get_eq_getElem, VList.toList_map, List.getElem_map]
  · intro v hv
    exact resolveValue_of_lookup_none hv
  · intro v d hvd
    obtain ⟨hmemf, hid⟩ := mLookup_eq_some hvd
    exact ⟨resolveValue_of_lookup_some hvd, mem_of_mem_fetchRefs hmemf, hid⟩
  · intro d hd xs hg v hv
    exact mem_refIdsOf_list hd hg hv
  · intro d hd v hg hs
    exact mem_refIdsOf_scalar hd hg hs
  · intro t v ht hid hv
    have hgd : docGetD t "_id" .vNull = v := by
      unfold docGetD; rw [hid]; rfl
    exact mLookup_isSome_of_mem (mem_fetchRefs ht hid hv) hgd

/-- Witness for C1: a batch with reference list a, b, c against a target
collection holding a and c; the hypotheses hold by evaluation and the theorem
applies. -/
theorem C1_populate_pure_substitution_witness :
    (∀ d ∈ resolveDemoDocs, refFieldOk "ref" d = true) ∧
    (∀ d ∈ resolveDemoDocs, (d.map Prod.fst).Nodup) ∧
    C1Resolution resolveDemoEnv resolveDemoDocs "ref" "t" :=
  ⟨by decide, by decide,
    C1_populate_pure_substitution resolveDemoEnv resolveDemoDocs "ref" "t"
      (by decide) (by decide)⟩

theorem truthy_get_brands_compute (env : StoreEnv) (cache : Cache)
    (skip limit : Nat) (brand_name : Option String) :
    truthy (get_brands_compute env cache skip limit brand_name).1 = true := rfl

theorem get_brands_compute_cache (env : StoreEnv) (cache : Cache)
    (skip limit : Nat) (brand_name : Option String) :
    (get_brands_compute env cache skip limit brand_name).2.1 =
      setCachedData cache (brandsKey skip limit brand_name)
        (get_brands_compute env cache skip limit brand_name).1 := rfl

theorem getCachedData_setCachedData_same (c : Cache) (k : String) (v : Value)
    (h : truthy v = true) : getCachedData (setCachedData c k v) k = some v := by
  unfold setCachedData
  rw [h]
  simp only [if_true]
  unfold getCachedData redisGet redisSet
  rw [List.find?_cons_of_pos _ (by simp)]
  rfl

/-- C2: calling get_brands twice with identical parameters returns, on the
second call, exactly the value the first call left in the cache, issues zero
store round trips, and leaves the cache as the first call left it — so the
cached path agrees with the uncached path. -/
theorem C2_cache_aside_idempotent (env : StoreEnv) (cache : Cache)
    (skip limit : Nat) (brand_name : Option String) :
    get_brands env ((get_brands env cache skip limit brand_name).2.1)
        skip limit brand_name =
      ((get_brands env cache skip limit brand_name).1,
       (get_brands env cache skip limit brand_name).2.1, 0) := by
  cases hc : getCachedData cache (brandsKey skip limit brand_name) with
  | some v =>
      by_cases ht : truthy v
      · have h1 : get_brands env cache skip limit brand_name = (v, cache, 0) := by
          simp [get_brands, hc, ht]
        rw [h1]
        simp [get_brands, hc, ht]
      · have h1 : get_brands env cache skip limit brand_name =
            get_brands_compute env cache skip limit brand_name := by
          simp [get_brands, hc, ht]
        rw [h1]
        have h2 : getCachedData
            (get_brands_compute env cache skip limit brand_name).2.1
            (brandsKey skip limit brand_name) =
            some (get_brands_compute env cache skip limit brand_name).1 := by
          rw [get_brands_compute_cache]
          exact getCachedData_setCachedData_same _ _ _
            (truthy_get_brands_compute env cache skip limit brand_name)
        simp [get_brands, h2, truthy_get_brands_compute]
  | none =>
      have h1 : get_brands env cache skip limit brand_name =
          get_brands_compute env cache skip limit brand_name := by
        simp [get_brands, hc]
      rw [h1]
      have h2 : getCachedData
          (get_brands_compute env cache skip limit brand_name).2.1
          (brandsKey skip limit brand_name) =
          some (get_brands_compute env cache skip limit brand_name).1 := by
        rw [get_brands_compute_cache]
        exact getCachedData_setCachedData_same _ _ _
          (truthy_get_brands_compute env cache skip limit brand_name)
      simp [get_brands, h2, truthy_get_brands_compute]

/-- Counterexample to C3: registering the same field twice makes exec issue
two population round trips against the target collection, although only one
distinct field is registered — the claimed at-most-one-per-distinct-field
bound fails. -/
theorem C3_duplicate_registration_two_round_trips :
    (dupPopulateQB.exec dupPopulateEnv).2 = 2 ∧
    (dupPopulateQB._populate_fields.map Prod.fst).dedup = ["x"] := by
  decide

theorem populateField_calls_le_one (env : StoreEnv) (docs : List Doc)
    (field target : String) : (populateField env docs field target).2 ≤ 1 := by
  unfold populateField
  by_cases h : (refIdsOf field docs).isEmpty <;> simp [h]

theorem populateAll_calls_le (env : StoreEnv) :
    ∀ (regs : List (String × String)) (docs : List Doc),
      (populateAll env regs docs).2 ≤ regs.length
  | [], _ => Nat.le_refl 0
  | reg :: rest, docs => by
      have h1 := populateField_calls_le_one env docs reg.1 reg.2
      have h2 := populateAll_calls_le env rest
        (populateField env docs reg.1 reg.2).1
      unfold populateAll
      simp only [List.length_cons]
      omega

/-- C3 amended: exec issues at most one population round trip per populate()
registration (per entry of the registration list), not per distinct field —
a field registered twice is fetched once for each registration. -/
theorem C3_one_round_trip_per_registration (env : StoreEnv) (qb : QueryBuilder) :
    (qb.exec env).2 ≤ qb._populate_fields.length := by
  unfold QueryBuilder.exec
  by_cases h : (qb.findDocs env).isEmpty
  · simp [h]
  · simp only [h, if_false, Bool.false_eq_true]
    exact populateAll_calls_le env qb._populate_fields (qb.findDocs env)

theorem populateField_of_absent {env : StoreEnv} {docs : List Doc}
    {field : String} (target : String)
    (h : ∀ d ∈ docs, docGet d field = none) :
    populateField env docs field target = (docs, 0) := by
  unfold populateField
  rw [refIdsOf_eq_nil_of_absent h]
  rfl

/-- C4: a populate registration whose field is absent from every found
document changes nothing and issues no population round trip; and a find
that yields no documents returns the empty list with the resolver never
invoked. -/
theorem C4_absent_field_and_empty_find (env : StoreEnv) (qb : QueryBuilder)
    (f t : String) :
    (qb._populate_fields = [(f, t)] →
      (∀ d ∈ qb.findDocs env, docGet d f = none) →
      qb.exec env = (qb.findDocs env, 0)) ∧
    (qb.findDocs env = [] → qb.exec env = ([], 0)) := by
  constructor
  · intro hreg habs
    unfold QueryBuilder.exec
    cases hE : (qb.findDocs env).isEmpty with
    | true =>
        have hnil : qb.findDocs env = [] := List.isEmpty_iff.mp hE
        simp [hnil]
    | false =>
        rw [hreg]
        simp only [hE, Bool.false_eq_true, if_false]
        unfold populateAll
        rw [populateField_of_absent t habs]
        simp [populateAll]
  · intro hempty
    unfold QueryBuilder.exec
    simp [hempty]

/-- Witness for C4: a concrete builder whose registered field no document
has, and a concrete empty find, evaluated and fed through the theorem. -/
theorem C4_absent_field_and_empty_find_witness :
    (absentFieldQB._populate_fields = [("missing", "t")]) ∧
    (∀ d ∈ absentFieldQB.findDocs absentFieldEnv, docGet d "missing" = none) ∧
    (absentFieldQB.exec absentFieldEnv = (absentFieldQB.findDocs absentFieldEnv, 0)) ∧
    (emptyFindQB.findDocs absentFieldEnv = []) ∧
    (emptyFindQB.exec absentFieldEnv = ([], 0)) :=
  ⟨by decide, by decide,
    (C4_absent_field_and_empty_find absentFieldEnv absentFieldQB "missing" "t").1
      (by decide) (by decide),
    by decide,
    (C4_absent_field_and_empty_find absentFieldEnv emptyFindQB "f" "t").2
      (by decide)⟩

/-- C5: every Aggregate Builder method appends exactly one stage, a chain of
calls yields exactly the corresponding stage sequence in call order, exec
runs the store aggregation on exactly the accumulated pipeline, and
sort-then-limit builds a different pipeline than limit-then-sort. -/
theorem C5_aggregate_pipeline_in_call_order (b : AggregateBuilder)
    (c g s p st : Doc) (n : Int) (env : StoreEnv) :
    (b.matchStage c).pipeline = b.pipeline ++ [[("$match", .vDoc (docToFields c))]] ∧
    (b.group g).pipeline = b.pipeline ++ [[("$group", .vDoc (docToFields g))]] ∧
    (b.sort s).pipeline = b.pipeline ++ [[("$sort", .vDoc (docToFields s))]] ∧
    (b.project p).pipeline = b.pipeline ++ [[("$project", .vDoc (docToFields p))]] ∧
    (b.skip n).pipeline = b.pipeline ++ [[("$skip", .vInt n)]] ∧
    (b.limit n).pipeline = b.pipeline ++ [[("$limit", .vInt n)]] ∧
    (b.add_stage st).pipeline = b.pipeline ++ [st] ∧
    ((((b.matchStage c).group g).sort s).limit n).pipeline =
      b.pipeline ++
        [[("$match", .vDoc (docToFields c))], [("$group", .vDoc (docToFields g))],
         [("$sort", .vDoc (docToFields s))], [("$limit", .vInt n)]] ∧
    b.exec env = env.aggregateImpl b.collectionName b.pipeline ∧
    ((b.sort s).limit n).pipeline ≠ ((b.limit n).sort s).pipeline := by
  refine ⟨rfl, rfl, rfl, rfl, rfl, rfl, rfl, ?_, rfl, ?_⟩
  · simp [AggregateBuilder.matchStage, AggregateBuilder.group,
      AggregateBuilder.sort, AggregateBuilder.limit]
  · intro hcontra
    simp only [AggregateBuilder.sort, AggregateBuilder.limit,
      List.append_assoc] at hcontra
    have h2 := List.append_cancel_left hcontra
    simp at h2

/-- C6: the facet pattern reports as total the number of documents entering
the facet stage, whatever skip and limit the data branch applies; and
get_brands computes its total from an unpaginated query, so it equals the
number of brand documents matching the filter, independent of skip, limit
and cache state. -/
theorem C6_total_independent_of_pagination :
    (∀ (skip limit : Nat) (input : List Doc),
      extractTotal (evalFacetStage skip limit input) = input.length) ∧
    (∀ (env : StoreEnv) (cache : Cache) (skip limit : Nat) (bn : Option String),
      resultField (get_brands_compute env cache skip limit bn).1 "total" =
        some (.vInt
          ((env.getColl "brands").filter (matchesFilter (brandsQuery bn))).length)) := by
  constructor
  · intro skip limit input
    cases input with
    | nil => rfl
    | cons d t => rfl
  · intro env cache skip limit bn
    rfl

/-- C7 (code evaluation at the failing input): the retry predicate of
BigQueryClient.execute_query accepts BadRequest — the error a malformed
query raises — so a bad query is retried, while a NotFound is not and the
genuinely transient ServiceUnavailable is. -/
theorem C7_retry_predicate_accepts_bad_request :
    retryPredicate ApiError.badRequest = true ∧
    retryPredicate ApiError.notFound = false ∧
    retryPredicate ApiError.serviceUnavailable = true := by
  decide

/-- C8: the pagination metadata of the computed brand listing reports page
as skip integer-divided by limit plus one when limit is positive and 1 when
limit is zero, page_size as the requested limit; at skip twenty, limit ten
the page is three. -/
theorem C8_pagination_arithmetic :
    (∀ (env : StoreEnv) (cache : Cache) (skip limit : Nat) (bn : Option String),
      resultField (get_brands_compute env cache skip limit bn).1 "page" =
        some (.vInt (if limit > 0 then ((skip / limit : Nat) : Int) + 1 else 1)) ∧
      resultField (get_brands_compute env cache skip limit bn).1 "page_size" =
        some (.vInt limit)) ∧
    (∀ (env : StoreEnv) (cache : Cache) (bn : Option String),
      resultField (get_brands_compute env cache 20 10 bn).1 "page" =
        some (.vInt 3)) := by
  constructor
  · intro env cache skip limit bn
    exact ⟨rfl, rfl⟩
  · intro env cache bn
    rfl

/-- C9: set_cached_data drops falsy values on the floor, a falsy cached
value is treated as a miss by get_brands (the full store path runs), and a
get_brand_by_name whose lookup finds nothing leaves the cache unchanged
while still costing a store round trip — so an empty result is recomputed on
every call. -/
theorem C9_falsy_results_never_cached :
    (∀ (c : Cache) (k : String) (v : Value), truthy v = false →
      setCachedData c k v = c) ∧
    (∀ (env : StoreEnv) (cache : Cache) (skip limit : Nat) (bn : Option String),
      (∀ v, getCachedData cache (brandsKey skip limit bn) = some v →
        truthy v = false) →
      get_brands env cache skip limit bn =
        get_brands_compute env cache skip limit bn) ∧
    (∀ (env : StoreEnv) (cache : Cache) (name : String),
      (∀ v, getCachedData cache (brandKey name) = some v → truthy v = false) →
      find_one env "brands" [("brand_name", .vStr name)] = none →
      get_brand_by_name env cache name = (none, cache, 1)) := by
  refine ⟨?_, ?_, ?_⟩
  · intro c k v h
    unfold setCachedData
    rw [h]
    rfl
  · intro env cache skip limit bn h
    cases hc : getCachedData cache (brandsKey skip limit bn) with
    | none => simp [get_brands, hc]
    | some v =>
        have ht := h v hc
        simp [get_brands, hc, ht]
  · intro env cache name h hfind
    cases hc : getCachedData cache (brandKey name) with
    | none => simp [get_brand_by_name, hc, hfind]
    | some v =>
        have ht := h v hc
        simp [get_brand_by_name, hc, ht, hfind]

/-- Witness for C9: a cache holding null under the brand-listing key and an
empty list under a brand key, an empty brands collection; the falsy write is
a no-op and both service paths go to the store. -/
theorem C9_falsy_results_never_cached_witness :
    (truthy Value.vNull = false ∧ setCachedData falsyCache "k" .vNull = falsyCache) ∧
    (get_brands falsyEnv falsyCache 0 10 none =
      get_brands_compute falsyEnv falsyCache 0 10 none) ∧
    (find_one falsyEnv "brands" [("brand_name", .vStr "ghost")] = none ∧
      get_brand_by_name falsyEnv falsyCache "ghost" = (none, falsyCache, 1)) :=
  ⟨⟨by decide, C9_falsy_results_never_cached.1 falsyCache "k" .vNull (by decide)⟩,
   C9_falsy_results_never_cached.2.1 falsyEnv falsyCache 0 10 none
     (by
       intro v hv
       have hk : getCachedData falsyCache (brandsKey 0 10 none) = some Value.vNull := by
         decide
       rw [hk] at hv
       injection hv with hv2
       rw [← hv2]
       rfl),
   ⟨by decide,
    C9_falsy_results_never_cached.2.2 falsyEnv falsyCache "ghost"
      (by
        intro v hv
        have hk : getCachedData falsyCache (brandKey "ghost") =
            some (Value.vList .nil) := by decide
        rw [hk] at hv
        injection hv with hv2
        rw [← hv2]
        rfl)
      (by decide)⟩⟩

/-- C10: exec, exec_one and the aggregate exec leave every accumulated piece
of builder configuration unchanged (their method bodies assign no attribute
of the builder), so re-executing the same builder issues a query built from
the identical configuration and returns the same result. -/
theorem C10_exec_preserves_builder_state (env : StoreEnv) (qb : QueryBuilder)
    (ab : AggregateBuilder) :
    (qb.execS env).2 = qb ∧
    (qb.exec_oneS env).2 = qb ∧
    (ab.execS env).2 = ab ∧
    ((qb.execS env).2).exec env = qb.exec env ∧
    ((qb.exec_oneS env).2).exec_one env = qb.exec_one env ∧
    ((ab.execS env).2).exec env = ab.exec env :=
  ⟨rfl, rfl, rfl, rfl, rfl, rfl⟩
